import Mathlib

/-!
Shallow embedding of the MSFT_lod glTF loader extension
(`src/loaders/src/glTF/2.0/Extensions/MSFT_lod.ts`) and proofs about its
LOD-list construction, range-request coalescing, deferred-signal sequencing
and level-lifecycle ordering.

Conventions used throughout:
* JavaScript numbers that only ever hold array indices / byte offsets are
  modelled as `Nat`; the one signed configuration value (`maxLODsToLoad`,
  validated with `<= 0`) is an `Int`.
* Nullable fields (`Nullable<number>`) are `Option Nat`; JS truthiness of
  such a value (`if (x)`) is made explicit by `jsTruthyOptNat`.
* Sparse JS arrays indexed by LOD level are `List (Option _)` with
  `jsGetElem` / `jsSetElem` mirroring `a[i]` reads and writes (a write
  extends the array with holes, as in JS).
* Fallible code (`throw`, `ArrayItem.Get`) returns `Except String _`.
* Promise settlement is modelled by explicit timestamps: a continuation
  attached with `.then` to a group of promises runs strictly after every
  one of them has fulfilled (`allFulfilTime`), and not at all if one of
  them rejects, matching `Promise.all(ps).then(onFulfilled)`.
-/

namespace MSFTLod

/-- JS truthiness of a `Nullable<number>`: `null` and `0` are falsy. -/
def jsTruthyOptNat : Option Nat → Bool
  | none => false
  | some n => n != 0

/-- Embedding of the JS idiom `x || 0` on a `Nullable<number>`. -/
def jsOrZero (v : Option Nat) : Nat :=
  if jsTruthyOptNat v then v.getD 0 else 0

/-- Embedding of `ArrayItem.Get(context, array, index)`: index-checked lookup
that throws on an out-of-range index. -/
def arrayItemGet {α : Type} (array : List α) (id : Nat) : Except String α :=
  match array.get? id with
  | some v => Except.ok v
  | none => Except.error "index out of range"

/-- Loop body of `_getLODs` (lines 326-331): walk the declared ids from last
to first (the caller passes `ids.reverse`), pushing the resolved property for
each id; if the accumulator reaches `maxLODs` entries, return it immediately
(the original property is NOT appended on this path); after the loop, append
the original property. -/
def getLODsLoop {α : Type} (maxLODs : Nat) (property : α) (array : List α) :
    List Nat → List α → Except String (List α)
  | [], acc => Except.ok (acc ++ [property])
  | id :: rest, acc =>
    match arrayItemGet array id with
    | Except.error e => Except.error e
    | Except.ok item =>
      let acc' := acc ++ [item]
      if acc'.length = maxLODs then Except.ok acc'
      else getLODsLoop maxLODs property array rest acc'

/-- Embedding of `MSFT_lod._getLODs` (lines 319-335): errors when
`maxLODsToLoad <= 0`, otherwise builds the lowest-to-highest LOD list from
the declared ids. -/
def getLODs {α : Type} (maxLODsToLoad : Int) (property : α) (array : List α)
    (ids : List Nat) : Except String (List α) :=
  if maxLODsToLoad ≤ 0 then Except.error "maxLODsToLoad must be greater than zero"
  else getLODsLoop maxLODsToLoad.toNat property array ids.reverse []

lemma getLODsLoop_spec {α : Type} (maxLODs : Nat) (p : α) (arr : List α) :
    ∀ (l : List Nat) (acc : List α), (∀ id ∈ l, id < arr.length) →
      acc.length < maxLODs →
      getLODsLoop maxLODs p arr l acc =
        Except.ok (acc ++ ((l.map (fun id => arr.getD id p) ++ [p]).take
          (min (l.length + 1) (maxLODs - acc.length))))
  | [], acc, _, hacc => by
      simp only [getLODsLoop, List.map_nil, List.nil_append, List.length_nil]
      have h1 : 1 ≤ maxLODs - acc.length := by omega
      rw [min_eq_left h1]
      simp
  | id :: rest, acc, hv, hacc => by
      have hid : id < arr.length := hv id (List.mem_cons_self id rest)
      have hget : arr.get? id = some (arr.getD id p) := by
        rw [List.getD_eq_getElem?_getD, List.getElem?_eq_getElem hid]
        simp [List.get?_eq_getElem?, List.getElem?_eq_getElem hid]
      simp only [getLODsLoop, arrayItemGet, hget]
      by_cases hfull : (acc ++ [arr.getD id p]).length = maxLODs
      · simp only [hfull, if_pos rfl]
        have hlen : acc.length + 1 = maxLODs := by
          simpa using hfull
        have hm : maxLODs - acc.length = 1 := by omega
        rw [hm]
        have : min (rest.length + 1 + 1) 1 = 1 := by omega
        simp only [List.length_cons, List.map_cons, List.cons_append]
        rw [show rest.length + 1 + 1 = rest.length + 2 from rfl]
        have hmin : min (rest.length + 2) 1 = 1 := by omega
        rw [hmin]
        simp
      · simp only [hfull, if_neg hfull]
        have hacc' : (acc ++ [arr.getD id p]).length < maxLODs := by
          have : acc.length + 1 ≤ maxLODs := by omega
          have : acc.length + 1 ≠ maxLODs := by
            intro h; exact hfull (by simpa using h)
          simp only [List.length_append, List.length_singleton]
          omega
        have hv' : ∀ i ∈ rest, i < arr.length := fun i hi => hv i (List.mem_cons_of_mem _ hi)
        rw [getLODsLoop_spec maxLODs p arr rest (acc ++ [arr.getD id p]) hv' hacc']
        simp only [List.append_assoc, List.singleton_append]
        simp only [List.length_append, List.length_singleton, List.length_cons,
          List.map_cons, List.cons_append]
        have hsub : maxLODs - acc.length = (maxLODs - (acc.length + 1)) + 1 := by omega
        rw [hsub]
        have hmin : min (rest.length + 1 + 1) ((maxLODs - (acc.length + 1)) + 1)
            = (min (rest.length + 1) (maxLODs - (acc.length + 1))) + 1 := by omega
        rw [hmin]
        simp [List.take_succ_cons]

/-- C1 (amended): for cap `C ≥ 1` and valid ids, `_getLODs` returns exactly
`min (N+1) C` entries taken coarsest-first from the reversed declared ids
followed by the original property; the original (finest) variant is the last
entry exactly when the cap does not truncate (`N < C`); when it does
truncate (`C ≤ N`), the result is the `C` coarsest declared variants and the
original property is dropped. -/
theorem C1_getLODs_amended {α : Type} (C : Nat) (hC : 1 ≤ C) (p : α)
    (arr : List α) (ids : List Nat) (hv : ∀ id ∈ ids, id < arr.length) :
    getLODs (C : Int) p arr ids =
      Except.ok ((ids.reverse.map (fun id => arr.getD id p) ++ [p]).take
        (min (ids.length + 1) C))
    ∧ ((ids.reverse.map (fun id => arr.getD id p) ++ [p]).take
        (min (ids.length + 1) C)).length = min (ids.length + 1) C
    ∧ (ids.length < C →
        ((ids.reverse.map (fun id => arr.getD id p) ++ [p]).take
          (min (ids.length + 1) C)).getLast? = some p)
    ∧ (C ≤ ids.length →
        (ids.reverse.map (fun id => arr.getD id p) ++ [p]).take
          (min (ids.length + 1) C)
        = (ids.reverse.map (fun id => arr.getD id p)).take C) := by
  have hCpos : ¬ ((C : Int) ≤ 0) := by
    intro h
    omega
  have htoNat : (C : Int).toNat = C := Int.toNat_natCast C
  have hv' : ∀ id ∈ ids.reverse, id < arr.length := by
    intro id hid
    exact hv id (List.mem_reverse.mp hid)
  have h0 : ([] : List α).length < C := by simpa using hC
  refine ⟨?_, ?_, ?_, ?_⟩
  · simp only [getLODs, hCpos, if_neg hCpos, htoNat]
    rw [getLODsLoop_spec C p arr ids.reverse [] hv' h0]
    simp [List.length_reverse]
  · rw [List.length_take]
    have : (ids.reverse.map (fun id => arr.getD id p) ++ [p]).length = ids.length + 1 := by
      simp
    omega
  · intro hlt
    have hmin : min (ids.length + 1) C = ids.length + 1 := by omega
    rw [hmin]
    have hlen : (ids.reverse.map (fun id => arr.getD id p) ++ [p]).length = ids.length + 1 := by
      simp
    rw [List.take_of_length_le (le_of_eq hlen)]
    simp
  · intro hle
    have hmin : min (ids.length + 1) C = C := by omega
    rw [hmin]
    have hlen : C ≤ (ids.reverse.map (fun id => arr.getD id p)).length := by
      simp [hle]
    exact List.take_append_of_le_length hlen

/-- Witness for C1 amended: two declared ids, cap 3 (no truncation): result
is the two reversed variants followed by the original, length `min 3 3 = 3`,
last entry is the original. -/
theorem C1_getLODs_amended_witness :
    (1 ≤ 3 ∧ ∀ id ∈ [0, 1], id < [(10 : Nat), 20].length)
    ∧ getLODs (3 : Int) (99 : Nat) [10, 20] [0, 1] = Except.ok [20, 10, 99] := by
  refine ⟨⟨by decide, by decide⟩, ?_⟩
  have h := (C1_getLODs_amended 3 (by decide) (99 : Nat) [10, 20] [0, 1] (by decide)).1
  simpa using h

/-- C1 counterexample: with two declared variant ids and cap `C = 1`, the
list produced by `_getLODs` is `[20]` — the single coarsest declared
variant — and its last entry is not the original property `99`: the early
return at the cap (line 329) skips the `properties.push(property)` at line
333, so the original (finest) variant is dropped under truncation,
contradicting the claim that the last entry is always the original. -/
theorem C1_getLODs_counterexample :
    getLODs (1 : Int) (99 : Nat) [10, 20] [0, 1] = Except.ok [20]
    ∧ (Except.ok [20] : Except String (List Nat)) ≠ Except.ok [99]
    ∧ ([20] : List Nat).getLast? ≠ some 99 := by
  refine ⟨?_, by simp, by decide⟩
  rfl

/-- Range bucket for one LOD level, mirroring the element type of
`_bufferLODs` (line 59). The source's inclusive `end` field is named `stop`
here because `end` is a Lean keyword. -/
structure BufferLOD where
  start : Nat
  stop : Nat
  deriving DecidableEq, Repr

/-- Read `a[i]` of a (possibly sparse) JS array: a hole or out-of-range
index reads as `undefined` (`none`). -/
def jsGetElem {α : Type} (a : List (Option α)) (i : Nat) : Option α :=
  a.getD i none

/-- Write `a[i] = v` to a JS array: extends the array with holes when `i` is
past the end, as JS assignment does. -/
def jsSetElem {α : Type} (a : List (Option α)) (i : Nat) (v : α) : List (Option α) :=
  (a ++ List.replicate (i + 1 - a.length) none).set i (some v)

lemma jsGet_jsSet_self {α : Type} (a : List (Option α)) (i : Nat) (v : α) :
    jsGetElem (jsSetElem a i v) i = some v := by
  unfold jsGetElem jsSetElem
  have hlen : i < (a ++ List.replicate (i + 1 - a.length) none).length := by
    simp only [List.length_append, List.length_replicate]
    omega
  rw [List.getD_eq_getElem?_getD, List.getElem?_set_eq_of_lt _ hlen]
  rfl

/-- Result of `MSFT_lod.loadBufferAsync`: `unhandled` is the source's
`return null` (normal path), `missingBin` the thrown error for a missing
binary chunk, and `bucketed level offset length` the returned promise that
will yield the sub-slice `[offset, offset+length)` of the bucket read for
`level`. -/
inductive LoadBufferResult where
  | unhandled
  | missingBin
  | bucketed (level offset length : Nat)
  deriving DecidableEq, Repr

/-- Embedding of `MSFT_lod.loadBufferAsync` (lines 278-305): when range
requests are enabled and the buffer has no URI, fold the request
`[byteOffset, byteOffset+byteLength-1]` into the bucket for
`this._indexLOD || 0` (creating it if absent, widening it by min/max
otherwise), throwing first if the binary chunk is missing; otherwise return
`null`. -/
def loadBufferAsync (useRangeRequests hasUri hasBin : Bool) (indexLOD : Option Nat)
    (bufferLODs : List (Option BufferLOD)) (byteOffset byteLength : Nat) :
    LoadBufferResult × List (Option BufferLOD) :=
  if useRangeRequests && !hasUri then
    if !hasBin then (LoadBufferResult.missingBin, bufferLODs)
    else
      let level := jsOrZero indexLOD
      let start := byteOffset
      let stop := start + byteLength - 1
      match jsGetElem bufferLODs level with
      | some b =>
        (LoadBufferResult.bucketed level byteOffset byteLength,
          jsSetElem bufferLODs level { start := min b.start start, stop := max b.stop stop })
      | none =>
        (LoadBufferResult.bucketed level byteOffset byteLength,
          jsSetElem bufferLODs level { start := start, stop := stop })
  else (LoadBufferResult.unhandled, bufferLODs)

/-- Data returned by `bin.readAsync(start, len)`: the bytes of the binary
payload `bin` at offsets `start, ..., start+len-1`. -/
def readAsyncData (bin : Nat → Nat) (start len : Nat) : List Nat :=
  (List.range len).map (fun k => bin (start + k))

/-- Bytes fetched by `_loadBufferLOD` for a bucket: one read of
`bufferLOD.end - bufferLOD.start + 1` bytes from `bufferLOD.start`
(line 309). -/
def loadBufferLODData (bin : Nat → Nat) (b : BufferLOD) : List Nat :=
  readAsyncData bin b.start (b.stop - b.start + 1)

/-- Value produced by the promise `loadBufferAsync` returns (lines 299-301):
`new Uint8Array(data.buffer, data.byteOffset + byteOffset - bufferLOD.start,
byteLength)` — the `byteLength` bytes of the bucket's fetched data starting
at index `byteOffset - bufferLOD.start`. -/
def sliceFuture (bin : Nat → Nat) (b : BufferLOD) (byteOffset byteLength : Nat) : List Nat :=
  ((loadBufferLODData bin b).drop (byteOffset - b.start)).take byteLength

/-- Sequential application of `loadBufferAsync` to a list of
`(byteOffset, byteLength)` requests, all issued under the same
`this._indexLOD` value. -/
def runRequests (useRR hasUri hasBin : Bool) (indexLOD : Option Nat) :
    List (Option BufferLOD) → List (Nat × Nat) → List (Option BufferLOD)
  | buf, [] => buf
  | buf, (o, l) :: rest =>
    runRequests useRR hasUri hasBin indexLOD
      (loadBufferAsync useRR hasUri hasBin indexLOD buf o l).2 rest

/-- One widening step of a bucket by a request, matching lines 291-292. -/
def bucketStep (b : BufferLOD) (r : Nat × Nat) : BufferLOD :=
  { start := min b.start r.1, stop := max b.stop (r.1 + r.2 - 1) }

/-- Bucket obtained from a first request `(o, l)` followed by the requests
in `rest`: created spanning `[o, o+l-1]`, then widened by min/max. -/
def bucketOfRequests (o l : Nat) (rest : List (Nat × Nat)) : BufferLOD :=
  rest.foldl bucketStep { start := o, stop := o + l - 1 }

lemma runRequests_bucket (indexLOD : Option Nat) :
    ∀ (rs : List (Nat × Nat)) (buf : List (Option BufferLOD)) (b : BufferLOD),
      jsGetElem buf (jsOrZero indexLOD) = some b →
      jsGetElem (runRequests true false true indexLOD buf rs) (jsOrZero indexLOD)
        = some (rs.foldl bucketStep b)
  | [], buf, b, hb => by simpa [runRequests] using hb
  | (o, l) :: rest, buf, b, hb => by
    have hstep : (loadBufferAsync true false true indexLOD buf o l).2
        = jsSetElem buf (jsOrZero indexLOD)
            { start := min b.start o, stop := max b.stop (o + l - 1) } := by
      simp only [loadBufferAsync, hb]
      rfl
    show jsGetElem (runRequests true false true indexLOD
        (loadBufferAsync true false true indexLOD buf o l).2 rest) (jsOrZero indexLOD) = _
    rw [hstep]
    rw [runRequests_bucket indexLOD rest _ _ (jsGet_jsSet_self _ _ _)]
    rfl

lemma bucketFoldl_start_le (rs : List (Nat × Nat)) :
    ∀ b : BufferLOD, (rs.foldl bucketStep b).start ≤ b.start := by
  induction rs with
  | nil => intro b; simp
  | cons r rest ih =>
    intro b
    calc ((r :: rest).foldl bucketStep b).start
        = (rest.foldl bucketStep (bucketStep b r)).start := by rfl
      _ ≤ (bucketStep b r).start := ih _
      _ ≤ b.start := min_le_left _ _

lemma bucketFoldl_stop_ge (rs : List (Nat × Nat)) :
    ∀ b : BufferLOD, b.stop ≤ (rs.foldl bucketStep b).stop := by
  induction rs with
  | nil => intro b; simp
  | cons r rest ih =>
    intro b
    calc b.stop ≤ (bucketStep b r).stop := le_max_left _ _
      _ ≤ (rest.foldl bucketStep (bucketStep b r)).stop := ih _

lemma bucketFoldl_mem (rs : List (Nat × Nat)) :
    ∀ (b : BufferLOD) (r : Nat × Nat), r ∈ rs →
      (rs.foldl bucketStep b).start ≤ r.1
      ∧ r.1 + r.2 - 1 ≤ (rs.foldl bucketStep b).stop := by
  induction rs with
  | nil => intro b r hr; cases hr
  | cons q rest ih =>
    intro b r hr
    rcases List.mem_cons.mp hr with h | h
    · subst h
      constructor
      · calc ((r :: rest).foldl bucketStep b).start
            = (rest.foldl bucketStep (bucketStep b r)).start := rfl
          _ ≤ (bucketStep b r).start := bucketFoldl_start_le _ _
          _ ≤ r.1 := min_le_right _ _
      · calc r.1 + r.2 - 1 ≤ (bucketStep b r).stop := le_max_right _ _
          _ ≤ (rest.foldl bucketStep (bucketStep b r)).stop := bucketFoldl_stop_ge _ _
    · exact ih (bucketStep b q) r h

lemma sliceFuture_eq (bin : Nat → Nat) (b : BufferLOD) (o l : Nat)
    (h1 : b.start ≤ o) (h2 : o + l - 1 ≤ b.stop) (h3 : 1 ≤ l) :
    sliceFuture bin b o l = (List.range l).map (fun k => bin (o + k)) := by
  have hn : (o - b.start) + l ≤ b.stop - b.start + 1 := by omega
  apply List.ext_getElem
  · simp only [sliceFuture, loadBufferLODData, readAsyncData, List.length_take,
      List.length_drop, List.length_map, List.length_range]
    omega
  · intro j hj hj'
    simp only [sliceFuture, loadBufferLODData, readAsyncData, List.getElem_take,
      List.getElem_drop, List.getElem_map, List.getElem_range]
    congr 1
    omega

/-- C5: range coalescing. A first request at a level with no bucket creates
one spanning exactly `[offset, offset+length-1]`; each later request widens
the existing bucket to `[min(start, offset), max(end, offset+length-1)]`;
folding a whole request sequence produces the single merged bucket
`bucketOfRequests`, and every request's returned future yields exactly the
bytes `[offset, offset+length)` of the binary, sliced out of that one
bucket's single read at index `offset - bucket.start`; in particular
requests `(10,5)` then `(0,8)` merge to the bucket `[0,14]`. -/
theorem C5_range_coalescing (indexLOD : Option Nat) (buf0 : List (Option BufferLOD))
    (o l : Nat) (rest : List (Nat × Nat)) (bin : Nat → Nat)
    (hfresh : jsGetElem buf0 (jsOrZero indexLOD) = none)
    (hl : 1 ≤ l) (hrest : ∀ r ∈ rest, 1 ≤ r.2) :
    jsGetElem (loadBufferAsync true false true indexLOD buf0 o l).2 (jsOrZero indexLOD)
      = some { start := o, stop := o + l - 1 }
    ∧ (∀ (buf : List (Option BufferLOD)) (b : BufferLOD) (o' l' : Nat),
        jsGetElem buf (jsOrZero indexLOD) = some b →
        jsGetElem (loadBufferAsync true false true indexLOD buf o' l').2 (jsOrZero indexLOD)
          = some { start := min b.start o', stop := max b.stop (o' + l' - 1) })
    ∧ jsGetElem (runRequests true false true indexLOD buf0 ((o, l) :: rest)) (jsOrZero indexLOD)
        = some (bucketOfRequests o l rest)
    ∧ (∀ r ∈ (o, l) :: rest,
        sliceFuture bin (bucketOfRequests o l rest) r.1 r.2
          = (List.range r.2).map (fun k => bin (r.1 + k)))
    ∧ jsGetElem (runRequests true false true (some 1) [] [(10, 5), (0, 8)]) 1
        = some { start := 0, stop := 14 } := by
  have hcreate : (loadBufferAsync true false true indexLOD buf0 o l).2
      = jsSetElem buf0 (jsOrZero indexLOD) { start := o, stop := o + l - 1 } := by
    simp only [loadBufferAsync, hfresh]
    rfl
  refine ⟨?_, ?_, ?_, ?_, ?_⟩
  · rw [hcreate]; exact jsGet_jsSet_self _ _ _
  · intro buf b o' l' hb
    have : (loadBufferAsync true false true indexLOD buf o' l').2
        = jsSetElem buf (jsOrZero indexLOD)
            { start := min b.start o', stop := max b.stop (o' + l' - 1) } := by
      simp only [loadBufferAsync, hb]
      rfl
    rw [this]; exact jsGet_jsSet_self _ _ _
  · show jsGetElem (runRequests true false true indexLOD
        (loadBufferAsync true false true indexLOD buf0 o l).2 rest) (jsOrZero indexLOD) = _
    rw [hcreate]
    exact runRequests_bucket indexLOD rest _ _ (jsGet_jsSet_self _ _ _)
  · intro r hr
    rcases List.mem_cons.mp hr with h | h
    · subst h
      have hstart : (bucketOfRequests o l rest).start ≤ o := by
        calc (bucketOfRequests o l rest).start
            ≤ ({ start := o, stop := o + l - 1 } : BufferLOD).start :=
              bucketFoldl_start_le rest _
          _ = o := rfl
      have hstop : o + l - 1 ≤ (bucketOfRequests o l rest).stop := by
        calc o + l - 1
            = ({ start := o, stop := o + l - 1 } : BufferLOD).stop := rfl
          _ ≤ (bucketOfRequests o l rest).stop := bucketFoldl_stop_ge rest _
      exact sliceFuture_eq bin _ o l hstart hstop hl
    · have hb := bucketFoldl_mem rest { start := o, stop := o + l - 1 } r h
      exact sliceFuture_eq bin _ r.1 r.2 hb.1 hb.2 (hrest r h)
  · rfl

/-- Witness for C5: the concrete request pair `(10,5)` then `(0,8)` at level
1, over the identity binary. The bucket is `[0,14]` and each request's
future yields its own bytes. -/
theorem C5_range_coalescing_witness :
    (jsGetElem ([] : List (Option BufferLOD)) (jsOrZero (some 1)) = none
      ∧ (1 : Nat) ≤ 5 ∧ ∀ r ∈ [((0 : Nat), (8 : Nat))], 1 ≤ r.2)
    ∧ jsGetElem (runRequests true false true (some 1) [] [(10, 5), (0, 8)]) (jsOrZero (some 1))
        = some (bucketOfRequests 10 5 [(0, 8)])
    ∧ (∀ r ∈ [((10 : Nat), (5 : Nat)), (0, 8)],
        sliceFuture (fun k => k) (bucketOfRequests 10 5 [(0, 8)]) r.1 r.2
          = (List.range r.2).map (fun k => r.1 + k)) := by
  have h := C5_range_coalescing (some 1) [] 10 5 [(0, 8)] (fun k => k)
    (by decide) (by decide) (by decide)
  exact ⟨⟨by decide, by decide, by decide⟩, h.2.2.1, h.2.2.2.1⟩

/-- Coalescer state: the `_bufferLODs` array together with the log of
`bin.readAsync` calls `_loadBufferLOD` has issued, each recorded as
`(level, start, length)` in issue order. -/
structure CoalescerState where
  bufferLODs : List (Option BufferLOD)
  issuedReads : List (Nat × Nat × Nat)
  deriving DecidableEq, Repr

/-- Embedding of `_loadBufferLOD` (lines 307-314): dereferences the bucket
recorded for `indexLOD` and issues one
`readAsync(bufferLOD.start, bufferLOD.end - bufferLOD.start + 1)` call.
Returns `none` when no bucket exists (the source would crash dereferencing
`undefined` there). -/
def loadBufferLOD (cs : CoalescerState) (indexLOD : Nat) : Option CoalescerState :=
  match jsGetElem cs.bufferLODs indexLOD with
  | some b =>
    some { cs with issuedReads := cs.issuedReads ++ [(indexLOD, b.start, b.stop - b.start + 1)] }
  | none => none

/-- Request recording through `loadBufferAsync` lifted to the coalescer
state (range requests on, no URI, binary chunk present). -/
def recordBufferRequest (cs : CoalescerState) (indexLOD : Option Nat) (o l : Nat) :
    LoadBufferResult × CoalescerState :=
  ((loadBufferAsync true false true indexLOD cs.bufferLODs o l).1,
    { cs with bufferLODs := (loadBufferAsync true false true indexLOD cs.bufferLODs o l).2 })

/-- C9 counterexample: after the request `(10,5)` creates bucket 0 as
`[10,14]` and `_loadBufferLOD 0` issues its read, a further request `(0,8)`
for level 0 is not rejected or signalled as an error: `loadBufferAsync`
returns a normal bucketed future and silently widens the bucket to `[0,14]`,
past the `[10,14]` extent of the already-issued read. Moreover a second
`_loadBufferLOD 0` call (one happens per LOD-annotated object reaching its
level-0 iteration, line 172-174) issues a second read for level 0, so a
level's read is not issued at most once. -/
theorem C9_counterexample :
    (recordBufferRequest ⟨[], []⟩ none 10 5).2 = ⟨[some ⟨10, 14⟩], []⟩
    ∧ loadBufferLOD ⟨[some ⟨10, 14⟩], []⟩ 0 = some ⟨[some ⟨10, 14⟩], [(0, 10, 5)]⟩
    ∧ (recordBufferRequest ⟨[some ⟨10, 14⟩], [(0, 10, 5)]⟩ none 0 8).1
        = LoadBufferResult.bucketed 0 0 8
    ∧ (recordBufferRequest ⟨[some ⟨10, 14⟩], [(0, 10, 5)]⟩ none 0 8).2
        = ⟨[some ⟨0, 14⟩], [(0, 10, 5)]⟩
    ∧ loadBufferLOD ⟨[some ⟨0, 14⟩], [(0, 10, 5)]⟩ 0
        = some ⟨[some ⟨0, 14⟩], [(0, 10, 5), (0, 0, 15)]⟩
    ∧ (([(0, 10, 5), (0, 0, 15)] : List (Nat × Nat × Nat)).filter
        (fun r => r.1 = 0)).length = 2 := by
  refine ⟨rfl, rfl, rfl, rfl, rfl, by decide⟩

/-- C9 (amended): `loadBufferAsync` never consults the set of already-issued
reads — a request recorded after a level's read has been issued is silently
merged into the bucket by the same min/max widening, with no error, and the
issued-read log is untouched; and every `_loadBufferLOD` call on a level
with a bucket appends one more read for that level, so calling it once per
LOD-annotated object (as the source does for level 0) issues that many
reads. -/
theorem C9_amended (cs : CoalescerState) (indexLOD : Option Nat) (o l : Nat)
    (b : BufferLOD) (hb : jsGetElem cs.bufferLODs (jsOrZero indexLOD) = some b) :
    (recordBufferRequest cs indexLOD o l).1
      = LoadBufferResult.bucketed (jsOrZero indexLOD) o l
    ∧ (recordBufferRequest cs indexLOD o l).2.bufferLODs
        = jsSetElem cs.bufferLODs (jsOrZero indexLOD)
            { start := min b.start o, stop := max b.stop (o + l - 1) }
    ∧ (recordBufferRequest cs indexLOD o l).2.issuedReads = cs.issuedReads
    ∧ (∀ (cs' : CoalescerState) (n : Nat) (b' : BufferLOD),
        jsGetElem cs'.bufferLODs n = some b' →
        loadBufferLOD cs' n
          = some { cs' with
              issuedReads := cs'.issuedReads ++ [(n, b'.start, b'.stop - b'.start + 1)] }) := by
  refine ⟨?_, ?_, rfl, ?_⟩
  · simp only [recordBufferRequest, loadBufferAsync, hb]
    rfl
  · simp only [recordBufferRequest, loadBufferAsync, hb]
    rfl
  · intro cs' n b' hb'
    simp only [loadBufferLOD, hb']

/-- Witness for C9 amended: bucket `[10,14]` at level 0 with one read
already issued; a new request `(0,8)` merges to `[0,14]` with no error. -/
theorem C9_amended_witness :
    jsGetElem (CoalescerState.mk [some ⟨10, 14⟩] [(0, 10, 5)]).bufferLODs (jsOrZero none)
      = some ⟨10, 14⟩
    ∧ (recordBufferRequest ⟨[some ⟨10, 14⟩], [(0, 10, 5)]⟩ none 0 8).1
        = LoadBufferResult.bucketed (jsOrZero none) 0 8
    ∧ (recordBufferRequest ⟨[some ⟨10, 14⟩], [(0, 10, 5)]⟩ none 0 8).2.issuedReads
        = [(0, 10, 5)] := by
  have h := C9_amended ⟨[some ⟨10, 14⟩], [(0, 10, 5)]⟩ none 0 8 ⟨10, 14⟩ rfl
  exact ⟨rfl, h.1, h.2.2.1⟩

/-- C10 counterexample: with range requests enabled, a URI-less buffer and
no LOD level active, but the binary chunk missing, the request is not
folded into the level-0 bucket — `loadBufferAsync` throws
(`missingBin`) and leaves the bucket array empty. -/
theorem C10_counterexample :
    loadBufferAsync true false false none [] 0 4 = (LoadBufferResult.missingBin, [])
    ∧ jsGetElem ([] : List (Option BufferLOD)) 0 = none := by
  exact ⟨rfl, rfl⟩

/-- C10 (amended): when range requests are enabled, the buffer has no URI
and the binary chunk is present, a request made while `this._indexLOD` is
`null` or `0` is folded into the level-0 bucket (`this._indexLOD || 0`
evaluates to 0), creating or widening it; when range requests are disabled
or the buffer has a URI, `loadBufferAsync` returns `null` and leaves the
buckets untouched. -/
theorem C10_nonLOD_bucketed (indexLOD : Option Nat)
    (h : indexLOD = none ∨ indexLOD = some 0)
    (buf : List (Option BufferLOD)) (o l : Nat) :
    (loadBufferAsync true false true indexLOD buf o l).1 = LoadBufferResult.bucketed 0 o l
    ∧ (loadBufferAsync true false true indexLOD buf o l).2
        = (match jsGetElem buf 0 with
           | some b => jsSetElem buf 0 { start := min b.start o, stop := max b.stop (o + l - 1) }
           | none => jsSetElem buf 0 { start := o, stop := o + l - 1 })
    ∧ (∀ useRR hasUri hasBin : Bool, (useRR = false ∨ hasUri = true) →
        loadBufferAsync useRR hasUri hasBin indexLOD buf o l
          = (LoadBufferResult.unhandled, buf)) := by
  have hz : jsOrZero indexLOD = 0 := by
    rcases h with h | h <;> subst h <;> rfl
  refine ⟨?_, ?_, ?_⟩
  · simp only [loadBufferAsync, hz]
    cases hb : jsGetElem buf 0 <;> simp [hb]
  · simp only [loadBufferAsync, hz]
    cases hb : jsGetElem buf 0 <;> simp [hb]
  · intro useRR hasUri hasBin hcond
    rcases hcond with h' | h' <;> subst h' <;> simp [loadBufferAsync]

/-- Witness for C10 amended: `_indexLOD = 0`, one request `(3, 2)` on an
empty bucket array creates the level-0 bucket `[3,4]`; with range requests
off the call is unhandled. -/
theorem C10_nonLOD_bucketed_witness :
    ((some 0 : Option Nat) = none ∨ (some 0 : Option Nat) = some 0)
    ∧ (loadBufferAsync true false true (some 0) [] 3 2).1 = LoadBufferResult.bucketed 0 3 2
    ∧ loadBufferAsync false false true (some 0) [] 3 2 = (LoadBufferResult.unhandled, []) := by
  have h := C10_nonLOD_bucketed (some 0) (Or.inr rfl) [] 3 2
  exact ⟨Or.inr rfl, h.1, h.2.2 false false true (Or.inl rfl)⟩

/-- Read `a[i]` of a JS array of deferreds or booleans used in a condition:
a hole or out-of-range index is `undefined`, which is falsy. -/
def jsGetBool (a : List Bool) (i : Nat) : Bool :=
  a.getD i false

/-- Write `a[i] = v` to a JS boolean-like array, extending with holes. -/
def jsSetBool (a : List Bool) (i : Nat) (v : Bool) : List Bool :=
  (a ++ List.replicate (i + 1 - a.length) false).set i v

lemma jsGetBool_jsSetBool_self (a : List Bool) (i : Nat) (v : Bool) :
    jsGetBool (jsSetBool a i v) i = v := by
  unfold jsGetBool jsSetBool
  have hlen : i < (a ++ List.replicate (i + 1 - a.length) false).length := by
    simp only [List.length_append, List.length_replicate]
    omega
  rw [List.getD_eq_getElem?_getD, List.getElem?_set_eq_of_lt _ hlen]
  rfl

/-- Outcome of one tracked load promise: fulfilment or rejection, with the
timestamp at which it settles. -/
inductive Settle where
  | fulfilled (t : Nat)
  | rejected (t : Nat)
  deriving DecidableEq, Repr

/-- Timestamp of a settlement. -/
def Settle.time : Settle → Nat
  | fulfilled t => t
  | rejected t => t

/-- Whether a settlement is a fulfilment. -/
def Settle.isFulfilled : Settle → Bool
  | fulfilled _ => true
  | rejected _ => false

/-- Time at which the continuation attached with `.then` to
`Promise.all ts` runs in an execution where every promise in `ts` fulfils:
strictly after the last settlement. -/
def allFulfilTime (ts : List Settle) : Nat :=
  (ts.map Settle.time).foldr max 0 + 1

/-- Steps performed by the per-level continuation wired in `onReady`. The
node loop (lines 90-108) and the material loop (lines 110-128) have exactly
this shape, over their respective promise and signal arrays and
observables. -/
inductive ReadyStep where
  | endPerf (i : Nat)
  | logLoaded (i : Nat)
  | notifyLevel (i : Nat)
  | startPerf (i : Nat)
  | resolveSignal (i : Nat)
  deriving DecidableEq, Repr

/-- Body of the continuation `onReady` attaches to
`Promise.all(promiseLODs[i])`: end the performance counter for `i ≠ 0`, log,
notify the level-loaded observable with `i`, and for a non-final level start
the next counter and resolve the level-`i` signal if one exists. -/
def readyContinuation (numLevels : Nat) (signalExists : List Bool) (i : Nat) : List ReadyStep :=
  (if i ≠ 0 then [ReadyStep.endPerf i] else [])
  ++ [ReadyStep.logLoaded i, ReadyStep.notifyLevel i]
  ++ (if i ≠ numLevels - 1 then
        [ReadyStep.startPerf (i + 1)]
        ++ (if jsGetBool signalExists i then [ReadyStep.resolveSignal i] else [])
      else [])

/-- Timed trace of the continuations `onReady` wires over the per-level
promise lists: level `i`'s continuation runs at `allFulfilTime` of its
promise group when every promise in the group fulfils, and never runs when
any of them rejects (`Promise.all(ps).then(onFulfilled)` skips
`onFulfilled` on rejection). -/
def readyTrace (settles : List (List Settle)) (signalExists : List Bool) :
    List (Nat × ReadyStep) :=
  (List.range settles.length).flatMap (fun i =>
    if (settles.getD i []).all Settle.isFulfilled then
      (readyContinuation settles.length signalExists i).map
        (fun a => (allFulfilTime (settles.getD i []), a))
    else [])

/-- Number of occurrences of a step in a timed trace, at any time. -/
def countStep (trace : List (Nat × ReadyStep)) (s : ReadyStep) : Nat :=
  (trace.filter (fun p => p.2 == s)).length

lemma countStep_append (t1 t2 : List (Nat × ReadyStep)) (s : ReadyStep) :
    countStep (t1 ++ t2) s = countStep t1 s + countStep t2 s := by
  simp [countStep, List.filter_append]

lemma countStep_flatMap (f : Nat → List (Nat × ReadyStep)) (s : ReadyStep) :
    ∀ l : List Nat, countStep (l.flatMap f) s = (l.map (fun j => countStep (f j) s)).sum
  | [] => rfl
  | x :: xs => by
    simp only [List.flatMap_cons, List.map_cons, List.sum_cons, countStep_append]
    rw [countStep_flatMap f s xs]

lemma countStep_cont_notify (n : Nat) (sig : List Bool) (i j : Nat) (T : Nat) :
    countStep ((readyContinuation n sig j).map (fun a => (T, a)))
      (ReadyStep.notifyLevel i) = if j = i then 1 else 0 := by
  unfold countStep readyContinuation
  rw [List.filter_map]
  by_cases hj : j = i
  · subst hj
    rw [if_pos rfl]
    split_ifs <;> simp [Function.comp]
  · rw [if_neg hj]
    split_ifs <;> simp [Function.comp, hj]

lemma sum_map_range_indicator (i : Nat) :
    ∀ n : Nat, i < n → ((List.range n).map (fun j => if j = i then 1 else 0)).sum = 1 := by
  intro n
  induction n with
  | zero => omega
  | succ n ih =>
    intro hi
    rw [List.range_succ, List.map_append, List.sum_append]
    by_cases h : i = n
    · subst h
      have hz : ((List.range i).map (fun j => if j = i then 1 else 0)).sum = 0 := by
        apply List.sum_eq_zero
        intro x hx
        rcases List.mem_map.mp hx with ⟨j, hj, hxj⟩
        have : j < i := List.mem_range.mp hj
        rw [← hxj]
        simp only [if_neg (by omega : j ≠ i)]
      simp [hz]
    · have hlt : i < n := by omega
      have h' : ¬ n = i := by omega
      rw [ih hlt]
      simp [h']

lemma notifyLevel_mem_readyContinuation {n : Nat} {sig : List Bool} {i j : Nat}
    (h : ReadyStep.notifyLevel i ∈ readyContinuation n sig j) : j = i := by
  unfold readyContinuation at h
  split_ifs at h <;> simp_all

lemma resolveSignal_mem_readyContinuation {n : Nat} {sig : List Bool} {i : Nat}
    (hne : i ≠ n - 1) (hsig : jsGetBool sig i = true) :
    ReadyStep.resolveSignal i ∈ readyContinuation n sig i := by
  unfold readyContinuation
  rw [if_pos hne, if_pos hsig]
  simp

lemma mem_le_foldr_max : ∀ (l : List Nat) (x : Nat), x ∈ l → x ≤ l.foldr max 0
  | a :: l, x, hx => by
    rcases List.mem_cons.mp hx with h | h
    · subst h; exact le_max_left _ _
    · exact le_trans (mem_le_foldr_max l x h) (le_max_right _ _)

/-- C2 counterexample: a level whose single tracked promise rejects. The
`Promise.all(...).then(onFulfilled)` continuation never runs, so the
level-loaded notification fires zero times, not exactly once; the claim's
"fires exactly once ... after every tracked object's promise has settled"
fails for settled-by-rejection promises. -/
theorem C2_counterexample :
    countStep (readyTrace [[Settle.rejected 0]] []) (ReadyStep.notifyLevel 0) = 0
    ∧ readyTrace [[Settle.rejected 0]] [] = [] := by
  exact ⟨rfl, rfl⟩

/-- C2 (amended): in an execution where every tracked level-`i` promise
fulfils, the level-`i` loaded notification fires exactly once in the whole
trace, strictly after every tracked level-`i` promise has settled; and for
a non-final level whose deferred signal exists, the signal is resolved by
the same continuation (at the same instant the notification fires). When a
level-`i` promise rejects, the notification for that level never fires. -/
theorem C2_level_event_amended (settles : List (List Settle)) (sig : List Bool) (i : Nat)
    (hi : i < settles.length)
    (hful : (settles.getD i []).all Settle.isFulfilled = true) :
    countStep (readyTrace settles sig) (ReadyStep.notifyLevel i) = 1
    ∧ (∀ p ∈ readyTrace settles sig, p.2 = ReadyStep.notifyLevel i →
        ∀ s ∈ settles.getD i [], s.time < p.1)
    ∧ (i ≠ settles.length - 1 → jsGetBool sig i = true →
        (allFulfilTime (settles.getD i []), ReadyStep.resolveSignal i)
          ∈ readyTrace settles sig) := by
  refine ⟨?_, ?_, ?_⟩
  · rw [readyTrace, countStep_flatMap]
    have hmap : ∀ j, countStep
        (if (settles.getD j []).all Settle.isFulfilled then
          (readyContinuation settles.length sig j).map
            (fun a => (allFulfilTime (settles.getD j []), a))
        else []) (ReadyStep.notifyLevel i) = if j = i then 1 else 0 := by
      intro j
      by_cases hj : j = i
      · subst hj
        rw [if_pos hful, countStep_cont_notify]
      · by_cases hf : (settles.getD j []).all Settle.isFulfilled
        · rw [if_pos hf, countStep_cont_notify]
        · rw [if_neg hf, if_neg hj]; rfl
    calc ((List.range settles.length).map _).sum
        = ((List.range settles.length).map (fun j => if j = i then 1 else 0)).sum := by
          apply congrArg
          exact List.map_congr_left (fun j _ => hmap j)
      _ = 1 := sum_map_range_indicator i settles.length hi
  · intro p hp hnotify
    rcases List.mem_flatMap.mp hp with ⟨j, _, hpj⟩
    by_cases hf : (settles.getD j []).all Settle.isFulfilled
    · rw [if_pos hf] at hpj
      rcases List.mem_map.mp hpj with ⟨a, ha, hpa⟩
      have hmem : ReadyStep.notifyLevel i ∈ readyContinuation settles.length sig j := by
        have ha' : a = ReadyStep.notifyLevel i := by
          rw [← hpa] at hnotify
          exact hnotify
        rw [← ha']
        exact ha
      have hji : j = i := notifyLevel_mem_readyContinuation hmem
      subst hji
      intro s hs
      have ht : s.time ≤ ((settles.getD j []).map Settle.time).foldr max 0 :=
        mem_le_foldr_max _ _ (List.mem_map_of_mem _ hs)
      have hp1 : p.1 = allFulfilTime (settles.getD j []) := by rw [← hpa]
      rw [hp1]
      unfold allFulfilTime
      omega
    · rw [if_neg hf] at hpj
      cases hpj
  · intro hne hsig
    apply List.mem_flatMap.mpr
    refine ⟨i, List.mem_range.mpr hi, ?_⟩
    rw [if_pos hful]
    exact List.mem_map_of_mem _ (resolveSignal_mem_readyContinuation hne hsig)

/-- Witness for C2 amended: two tracked objects at level 0 of a two-level
sequence, fulfilling at times 3 and 5; the notification fires once, after
both, and the level-0 signal (present) is resolved at the same instant. -/
theorem C2_level_event_amended_witness :
    ((0 : Nat) < ([[Settle.fulfilled 3, Settle.fulfilled 5], [Settle.fulfilled 9]]).length
      ∧ (([[Settle.fulfilled 3, Settle.fulfilled 5],
          [Settle.fulfilled 9]].getD 0 []).all Settle.isFulfilled = true))
    ∧ countStep (readyTrace [[Settle.fulfilled 3, Settle.fulfilled 5], [Settle.fulfilled 9]]
        [true]) (ReadyStep.notifyLevel 0) = 1
    ∧ (6, ReadyStep.resolveSignal 0)
        ∈ readyTrace [[Settle.fulfilled 3, Settle.fulfilled 5], [Settle.fulfilled 9]] [true] := by
  have h := C2_level_event_amended
    [[Settle.fulfilled 3, Settle.fulfilled 5], [Settle.fulfilled 9]] [true] 0
    (by decide) (by decide)
  exact ⟨⟨by decide, by decide⟩, h.1, h.2.2 (by decide) (by decide)⟩

/-- Actions performed by the continuation attached to one node LOD level's
load promise in `loadNodeAsync` (lines 154-167). -/
inductive NodeAction where
  | disposeNode (i : Nat)
  | disposeUnusedMats
  | enable (i : Nat)
  deriving DecidableEq, Repr

/-- Continuation of level `i`'s node load (lines 154-167): for `i ≠ 0`, if
level `i-1`'s transform node is still tracked (`_babylonTransformNode`
present), dispose it and sweep unused materials; then enable (show) level
`i`'s own node via `setEnabled(true)`. -/
def nodeLoadContinuation (tracked : List Bool) (i : Nat) : List NodeAction :=
  (if i ≠ 0 then
    (if jsGetBool tracked (i - 1) then
      [NodeAction.disposeNode (i - 1), NodeAction.disposeUnusedMats]
     else [])
   else [])
  ++ [NodeAction.enable i]

/-- Timed trace of one node's per-level continuations, in an execution where
level `i`'s load promise fulfils at `settle.getD i 0`: the attached
continuation runs strictly after, at `settle.getD i 0 + 1`. -/
def nodeSwapTrace (settle : List Nat) (tracked : List Bool) : List (Nat × NodeAction) :=
  (List.range settle.length).flatMap (fun i =>
    (nodeLoadContinuation tracked i).map (fun a => (settle.getD i 0 + 1, a)))

lemma disposeNode_mem_nodeLoadContinuation {tracked : List Bool} {j k : Nat}
    (h : NodeAction.disposeNode j ∈ nodeLoadContinuation tracked k) :
    k ≠ 0 ∧ j = k - 1 := by
  unfold nodeLoadContinuation at h
  split_ifs at h <;> simp_all

/-- C3: for every level `i ≥ 1` whose predecessor's transform node is still
tracked, the level-`i` continuation is exactly dispose-previous, sweep,
then enable — so disposal of level `i-1`'s renderable precedes enabling
level `i`'s renderable; and every `disposeNode (i-1)` event in the trace
occurs at time `settle i + 1`, strictly after level `i`'s load promise
settles. -/
theorem C3_dispose_ordering (settle : List Nat) (tracked : List Bool) (i : Nat)
    (h1 : 1 ≤ i) (h2 : i < settle.length) (ht : jsGetBool tracked (i - 1) = true) :
    nodeLoadContinuation tracked i
      = [NodeAction.disposeNode (i - 1), NodeAction.disposeUnusedMats, NodeAction.enable i]
    ∧ (∀ p ∈ nodeSwapTrace settle tracked, p.2 = NodeAction.disposeNode (i - 1) →
        p.1 = settle.getD i 0 + 1 ∧ settle.getD i 0 < p.1) := by
  have hne : i ≠ 0 := by omega
  constructor
  · simp [nodeLoadContinuation, hne, ht]
  · intro p hp hdisp
    rcases List.mem_flatMap.mp hp with ⟨k, hk, hpk⟩
    rcases List.mem_map.mp hpk with ⟨a, ha, hpa⟩
    have haeq : a = NodeAction.disposeNode (i - 1) := by
      rw [← hpa] at hdisp
      exact hdisp
    rw [haeq] at ha
    have hk' := disposeNode_mem_nodeLoadContinuation ha
    have hki : k = i := by omega
    subst hki
    have hp1 : p.1 = settle.getD k 0 + 1 := by rw [← hpa]
    exact ⟨hp1, by omega⟩

/-- Witness for C3: three levels settling at times 4, 9, 13, with levels 0
and 1 still tracked when their successors finish. -/
theorem C3_dispose_ordering_witness :
    ((1 : Nat) ≤ 1 ∧ (1 : Nat) < ([4, 9, 13] : List Nat).length
      ∧ jsGetBool [true, true] 0 = true)
    ∧ nodeLoadContinuation [true, true] 1
        = [NodeAction.disposeNode 0, NodeAction.disposeUnusedMats, NodeAction.enable 1]
    ∧ (∀ p ∈ nodeSwapTrace [4, 9, 13] [true, true],
        p.2 = NodeAction.disposeNode 0 → p.1 = 10 ∧ 9 < p.1) := by
  have h := C3_dispose_ordering [4, 9, 13] [true, true] 1 (by decide) (by decide) (by decide)
  exact ⟨⟨by decide, by decide, by decide⟩, h.1, h.2⟩

/-- Result of `_loadUriAsync`: either a deferred future chained after the
named signal's promise, or `null` (the normal, undeferred path). -/
inductive UriLoadResult where
  | deferredMaterial (signalIndex : Nat)
  | deferredNode (signalIndex : Nat)
  | passthrough
  deriving DecidableEq, Repr

/-- Embedding of `_loadUriAsync` (lines 255-275): when a material LOD level
is being loaded, lazily create the previous level's material signal and
return a future chained after it; otherwise, when a node LOD level is being
loaded, do the same with the node signals; otherwise return `null`. The two
signal arrays are returned updated (a `a[i] = a[i] || new Deferred()`
write). -/
def loadUriAsync (materialIndexLOD nodeIndexLOD : Option Nat)
    (materialSignalLODs nodeSignalLODs : List Bool) :
    UriLoadResult × List Bool × List Bool :=
  match materialIndexLOD with
  | some i =>
    (UriLoadResult.deferredMaterial (i - 1),
      jsSetBool materialSignalLODs (i - 1) true, nodeSignalLODs)
  | none =>
    match nodeIndexLOD with
    | some i =>
      (UriLoadResult.deferredNode (i - 1),
        materialSignalLODs, jsSetBool nodeSignalLODs (i - 1) true)
    | none => (UriLoadResult.passthrough, materialSignalLODs, nodeSignalLODs)

/-- Time at which a continuation chained with `.then` onto a promise can
run: never if the promise never resolves, strictly after its resolution
otherwise. -/
def thenTime (resolveTime : Option Nat) : Option Nat :=
  resolveTime.map (fun t => t + 1)

/-- Issue time of the underlying `loader.loadUriAsync` request of a deferred
URI load (lines 261-263 and 269-271): the request is issued by the
continuation chained onto the awaited signal's promise. -/
def deferredUriIssueTime (signalResolveTime : Option Nat) : Option Nat :=
  thenTime signalResolveTime

/-- C4: a URI load requested while material LOD level `i` is active returns
a future deferred on the material signal `i-1`, which is lazily created;
symmetrically for node LOD levels; with no active material or node level
the dispatcher returns `null` and the signal arrays are untouched; and a
deferred request is issued strictly after the awaited signal resolves, and
never if the signal never resolves. -/
theorem C4_deferred_uri (materialIndexLOD nodeIndexLOD : Option Nat)
    (msig nsig : List Bool) :
    (∀ i, materialIndexLOD = some i →
      (loadUriAsync materialIndexLOD nodeIndexLOD msig nsig).1
        = UriLoadResult.deferredMaterial (i - 1)
      ∧ jsGetBool (loadUriAsync materialIndexLOD nodeIndexLOD msig nsig).2.1 (i - 1) = true)
    ∧ (∀ i, materialIndexLOD = none → nodeIndexLOD = some i →
      (loadUriAsync materialIndexLOD nodeIndexLOD msig nsig).1
        = UriLoadResult.deferredNode (i - 1)
      ∧ jsGetBool (loadUriAsync materialIndexLOD nodeIndexLOD msig nsig).2.2 (i - 1) = true)
    ∧ (materialIndexLOD = none → nodeIndexLOD = none →
      loadUriAsync materialIndexLOD nodeIndexLOD msig nsig
        = (UriLoadResult.passthrough, msig, nsig))
    ∧ (∀ (rt : Option Nat) (t : Nat), deferredUriIssueTime rt = some t →
        ∃ r, rt = some r ∧ r < t)
    ∧ deferredUriIssueTime none = none := by
  refine ⟨?_, ?_, ?_, ?_, rfl⟩
  · intro i hm
    subst hm
    exact ⟨rfl, jsGetBool_jsSetBool_self _ _ _⟩
  · intro i hm hn
    subst hm
    subst hn
    exact ⟨rfl, jsGetBool_jsSetBool_self _ _ _⟩
  · intro hm hn
    subst hm
    subst hn
    rfl
  · intro rt t hrt
    cases rt with
    | none => cases hrt
    | some r =>
      refine ⟨r, rfl, ?_⟩
      have h : r + 1 = t := by
        simpa [deferredUriIssueTime, thenTime] using hrt
      omega

/-- Witness for C4: material level 2 active defers on material signal 1 and
creates it; no active level passes through; a signal resolving at time 5
lets the deferred request issue only at a strictly later time. -/
theorem C4_deferred_uri_witness :
    ((loadUriAsync (some 2) none [] []).1 = UriLoadResult.deferredMaterial 1
      ∧ jsGetBool (loadUriAsync (some 2) none [] []).2.1 1 = true)
    ∧ loadUriAsync none none [] [] = (UriLoadResult.passthrough, [], [])
    ∧ (∃ r, (some 5 : Option Nat) = some r ∧ r < 6) := by
  have h := C4_deferred_uri (some 2) none [] []
  have h' := C4_deferred_uri none none [] []
  exact ⟨h.1 2 rfl, h'.2.2.1 rfl rfl, h.2.2.2.1 (some 5) 6 rfl⟩

/-- Guard at the top of `_loadMaterialAsync` (lines 193-196): material LOD
splitting is skipped exactly when `this._indexLOD` is JS-truthy
(`if (this._indexLOD) { return null; }`), which is false for both `null`
and `0`. -/
def loadMaterialLODsSuppressed (indexLOD : Option Nat) : Bool :=
  jsTruthyOptNat indexLOD

/-- C6 code behavior at the failing input: while node LOD level 0 is being
processed the active-level marker `_indexLOD` is `0`, which is JS-falsy, so
the guard does NOT return `null` and material LOD splitting proceeds —
contrary to the claim and to the source's own comment "Don't load material
LODs if already loading a node LOD." Suppression only happens for levels
`≥ 1` (and not at all when no level is active). -/
theorem C6_guard_level0 :
    loadMaterialLODsSuppressed (some 0) = false
    ∧ loadMaterialLODsSuppressed none = false
    ∧ loadMaterialLODsSuppressed (some 1) = true
    ∧ loadMaterialLODsSuppressed (some 2) = true := by
  exact ⟨rfl, rfl, rfl, rfl⟩

/-- Per-(material, draw-mode) tracking entry (`material._data[drawMode]`,
lines 222 and 344): the constructed material resource and the meshes
consuming it; materials and meshes are identified by numeric ids here. -/
structure MatData where
  babylonMaterial : Nat
  babylonMeshes : List Nat
  deriving DecidableEq, Repr

/-- Current material assigned to each mesh (`babylonMesh.material`),
indexed by mesh id. -/
def meshMaterialOf (meshMaterials : List (Option Nat)) (mesh : Nat) : Option Nat :=
  meshMaterials.getD mesh none

/-- Embedding of `_disposeUnusedMaterials` (lines 337-354): for every
tracked `_data` entry of every material, dispose the entry's material
resource when every one of its consumer meshes currently has some other
material assigned (`data.babylonMeshes.every(mesh => mesh.material !==
data.babylonMaterial)`). Returns the ids of the disposed materials. -/
def disposeUnusedMaterials (materialsData : List (List MatData))
    (meshMaterials : List (Option Nat)) : List Nat :=
  materialsData.flatMap (fun entries =>
    entries.filterMap (fun d =>
      if d.babylonMeshes.all (fun m => meshMaterialOf meshMaterials m != some d.babylonMaterial)
      then some d.babylonMaterial else none))

/-- Disposal performed inside the material-LOD continuation
(lines 218-226): when level `i ≥ 1`'s material finishes, level `i-1`'s
`_data[drawMode]` entry, if present, has its material disposed — with no
check of consumer meshes. Returns the ids disposed. -/
def materialSwapDisposals (previousDataLOD : Option MatData) : List Nat :=
  match previousDataLOD with
  | some d => [d.babylonMaterial]
  | none => []

/-- C7 counterexample: mesh 3 still has material 7 assigned (a visible
consumer), yet the material-LOD swap path disposes material 7
unconditionally because the superseded level's `_data` entry is present;
the consumer cross-check — which exists only in `_disposeUnusedMaterials`,
called from the node-LOD path and from `dispose()` — would have kept it. -/
theorem C7_counterexample :
    materialSwapDisposals (some ⟨7, [3]⟩) = [7]
    ∧ meshMaterialOf [none, none, none, some 7] 3 = some 7
    ∧ disposeUnusedMaterials [[⟨7, [3]⟩]] [none, none, none, some 7] = [] := by
  exact ⟨rfl, rfl, rfl⟩

/-- C7 (amended): the consumer cross-check precedes disposal only in
`_disposeUnusedMaterials` — every material it disposes has no consumer mesh
still referencing it — whereas the material-LOD swap path disposes the
superseded level's material unconditionally whenever its `_data` entry is
present, with no consumer check. -/
theorem C7_amended (materialsData : List (List MatData))
    (meshMaterials : List (Option Nat)) (m : Nat)
    (hm : m ∈ disposeUnusedMaterials materialsData meshMaterials) :
    (∃ entries ∈ materialsData, ∃ d ∈ entries, d.babylonMaterial = m
      ∧ ∀ mesh ∈ d.babylonMeshes, meshMaterialOf meshMaterials mesh ≠ some m)
    ∧ (∀ d : MatData, materialSwapDisposals (some d) = [d.babylonMaterial]) := by
  constructor
  · rcases List.mem_flatMap.mp hm with ⟨entries, hent, hmem⟩
    rcases List.mem_filterMap.mp hmem with ⟨d, hd, hdm⟩
    by_cases hall :
        d.babylonMeshes.all (fun x => meshMaterialOf meshMaterials x != some d.babylonMaterial)
    · rw [if_pos hall] at hdm
      have heq : d.babylonMaterial = m := by
        injection hdm
      refine ⟨entries, hent, d, hd, heq, ?_⟩
      intro mesh hmesh
      have := List.all_eq_true.mp hall mesh hmesh
      rw [heq] at this
      simpa using this
    · rw [if_neg hall] at hdm
      cases hdm
  · intro d
    rfl

/-- Witness for C7 amended: material 7's only consumer, mesh 3, now has
material 9 assigned, so `_disposeUnusedMaterials` disposes 7 and indeed no
consumer still references it. -/
theorem C7_amended_witness :
    (7 : Nat) ∈ disposeUnusedMaterials [[⟨7, [3]⟩]] [none, none, none, some 9]
    ∧ (∃ entries ∈ [[(⟨7, [3]⟩ : MatData)]], ∃ d ∈ entries, d.babylonMaterial = 7
        ∧ ∀ mesh ∈ d.babylonMeshes,
            meshMaterialOf [none, none, none, some 9] mesh ≠ some 7) := by
  have hm : (7 : Nat) ∈ disposeUnusedMaterials [[⟨7, [3]⟩]] [none, none, none, some 9] := by
    decide
  have h := C7_amended [[⟨7, [3]⟩]] [none, none, none, some 9] 7 hm
  exact ⟨hm, h.1⟩

/-- Levels whose bucket read `onReady` issues (lines 130-132): the loop
`for (indexLOD = 1; indexLOD < this._bufferLODs.length; indexLOD++)
this._loadBufferLOD(indexLOD)` runs synchronously, with no dependence on
any level's settlement. -/
def onReadyBufferIssues (bufferCount : Nat) : List Nat :=
  List.range' 1 (bufferCount - 1)

/-- Timestamped bucket-read issue events `(time, level)`: level 0's read is
issued at the time level 0's load begins (`tStart`, lines 169-174, when the
bucket array is non-empty at that point), and the reads of all other levels
are issued when `onReady` runs (`tReady`, lines 130-132). -/
def bufferReadIssueEvents (tStart tReady : Nat) (bufferCount : Nat)
    (buffersAtLevel0Start : Bool) : List (Nat × Nat) :=
  (if buffersAtLevel0Start then [(tStart, 0)] else [])
  ++ (onReadyBufferIssues bufferCount).map (fun i => (tReady, i))

/-- Gating property asserted by claim C8 over this model: every level
`i ≥ 1` bucket read is issued no earlier than level `i-1`'s visible swap,
which happens at `settle (i-1) + 1` (the enable step of level `i-1`'s
continuation, cf. `nodeSwapTrace`). -/
def c8GatingClaim (tStart tReady : Nat) (settle : List Nat) (bufferCount : Nat) : Prop :=
  ∀ p ∈ bufferReadIssueEvents tStart tReady bufferCount true,
    1 ≤ p.2 → settle.getD (p.2 - 1) 0 + 1 ≤ p.1

/-- C8 counterexample: three buffer levels, loads settling at times 10, 20,
30, `onReady` running at time 1. The reads for levels 1 AND 2 are both
issued at time 1, long before level 1's visible swap at time 21 — `onReady`
issues every level's read immediately, so reads are not gated one level
ahead of the visible level. -/
theorem C8_counterexample :
    ¬ c8GatingClaim 0 1 [10, 20, 30] 3
    ∧ bufferReadIssueEvents 0 1 3 true = [(0, 0), (1, 1), (1, 2)] := by
  constructor
  · intro h
    have := h (1, 2) (by decide) (by decide)
    simp at this
  · rfl

/-- C8 (amended): level 0's bucket read is issued at the time level 0's
load begins (when buckets exist at that point), and the reads of every
level `i` with `1 ≤ i < bufferCount` are all issued at the single instant
`onReady` runs, with no dependence on any level's settlement or visible
swap; any number of reads may therefore be outstanding ahead of the
visible level. -/
theorem C8_read_issuance_amended (tStart tReady : Nat) (bufferCount : Nat)
    (hb : 1 ≤ bufferCount) :
    (tStart, 0) ∈ bufferReadIssueEvents tStart tReady bufferCount true
    ∧ (∀ p ∈ bufferReadIssueEvents tStart tReady bufferCount true,
        1 ≤ p.2 → p.1 = tReady)
    ∧ (∀ i, 1 ≤ i → i < bufferCount →
        (tReady, i) ∈ bufferReadIssueEvents tStart tReady bufferCount true) := by
  refine ⟨?_, ?_, ?_⟩
  · unfold bufferReadIssueEvents
    rw [if_pos rfl]
    exact List.mem_append_left _ (List.mem_singleton.mpr rfl)
  · intro p hp hp2
    unfold bufferReadIssueEvents at hp
    rw [if_pos rfl] at hp
    rcases List.mem_append.mp hp with h | h
    · rcases List.mem_singleton.mp h with rfl
      omega
    · rcases List.mem_map.mp h with ⟨i, _, hpi⟩
      rw [← hpi]
  · intro i h1 h2
    unfold bufferReadIssueEvents
    rw [if_pos rfl]
    apply List.mem_append_right
    apply List.mem_map_of_mem
    unfold onReadyBufferIssues
    rw [List.mem_range'_1]
    omega

/-- Witness for C8 amended: three buffer levels, `onReady` at time 7. -/
theorem C8_read_issuance_amended_witness :
    (1 : Nat) ≤ 3
    ∧ (0, 0) ∈ bufferReadIssueEvents 0 7 3 true
    ∧ (7, 2) ∈ bufferReadIssueEvents 0 7 3 true := by
  have h := C8_read_issuance_amended 0 7 3 (by decide)
  exact ⟨by decide, h.1, h.2.2 2 (by decide) (by decide)⟩

end MSFTLod
